import Mathlib

/-!
Verification of the LoopAutoma runtime specification against its sources.

The TypeScript UI layer (store.ts, RecordingBar.tsx, ActionRecorder.tsx,
recordingEvents store) is embedded directly from the code.  The Rust core
(Monitor, Condition evaluator, Action executor, Automation backend) is not
part of the available sources, so those components are modelled from the
specification text, as indicated in each doc comment.
-/

/-- Monitor state, shared model type (spec section 3 and src/types). -/
inductive MonitorState where
  | Idle
  | Running
  | Stopped
  | PanicStopped
  deriving DecidableEq, Repr

/-- Runtime event, the tagged union from src/types.ts as exercised by the
UI tests and the spec's event list. -/
inductive Event where
  | TriggerFired
  | ConditionEvaluated (result : Bool)
  | ActionStarted (action : String)
  | ActionCompleted (action : String) (success : Bool)
  | TerminationCheckTriggered (reason : String)
  | WatchdogTripped (reason : String)
  | MonitorStateChanged (state : MonitorState)
  | ErrorEvt (message : String)
  | MonitorTick
  deriving DecidableEq, Repr

/-- JavaScript `arr.slice (-n)`: the last `n` elements (all of them when the
list is shorter than `n`). -/
def jsSliceLast (n : Nat) (l : List α) : List α :=
  l.drop (l.length - n)

/-- The state update performed by the listener in `useEventStream`
(src/store.ts line 16): `setEvents (prev => [...prev.slice (-499), e.payload])`. -/
def useEventStreamUpdate (prev : List Event) (e : Event) : List Event :=
  jsSliceLast 499 prev ++ [e]

/-- The event list held by `useEventStream` after a sequence of deliveries,
starting from the initial empty state (src/store.ts lines 10-25). -/
def useEventStreamEvents (delivered : List Event) : List Event :=
  delivered.foldl useEventStreamUpdate []

/-- The state update performed by the listener in `useRunState`
(src/store.ts lines 31-35): clear `runningProfileId` on any
`MonitorStateChanged` whose state is not `Running`. -/
def useRunStateUpdate (cur : Option String) (e : Event) : Option String :=
  match e with
  | Event.MonitorStateChanged s => if s ≠ MonitorState.Running then none else cur
  | _ => cur

/-- Modelled from the spec: `panic_stop` (spec 4.1/8; the Rust Monitor behind
the `monitor_panic_stop` bridge command is not among the available sources).
Any state transitions to `PanicStopped` immediately; the operation is
idempotent, so a `MonitorStateChanged` event is emitted only when the state
actually changes. Returns the new state and the events emitted by the call. -/
def panic_stop (s : MonitorState) : MonitorState × List Event :=
  if s = MonitorState.PanicStopped then (MonitorState.PanicStopped, [])
  else (MonitorState.PanicStopped, [Event.MonitorStateChanged MonitorState.PanicStopped])

/-- ActionContext (spec section 3): named variables, termination flag,
optional termination reason. -/
structure ActionContext where
  vars : List (String × String)
  should_terminate : Bool
  termination_reason : Option String
  deriving DecidableEq, Repr

/-- One action of a sequence: a description and its effect on the context.
The effect returns `none` on a hard failure that aborts the whole sequence,
otherwise the updated context and the per-action success flag reported in
`ActionCompleted`. -/
structure ActionItem where
  description : String
  execute : ActionContext → Option (ActionContext × Bool)

/-- Modelled from the spec: the Action executor loop (spec 4.3; the Rust
`ActionSequence::run` is not among the available sources). For each action in
order: emit `ActionStarted`, execute, emit `ActionCompleted`; then, if
`context.should_terminate` is now true, stop early and report success.
A hard failure aborts the whole sequence with `false`. The inter-action
settle delay has no observable effect in this pure model. Returns the
emitted events, the final context, and the overall success report. -/
def ActionSequence.run : List ActionItem → ActionContext → List Event × ActionContext × Bool
  | [], ctx => ([], ctx, true)
  | a :: rest, ctx =>
    match a.execute ctx with
    | none => ([Event.ActionStarted a.description, Event.ErrorEvt a.description], ctx, false)
    | some (ctx2, ok) =>
      if ctx2.should_terminate then
        ([Event.ActionStarted a.description, Event.ActionCompleted a.description ok,
          Event.TerminationCheckTriggered (ctx2.termination_reason.getD "")], ctx2, true)
      else
        let r := ActionSequence.run rest ctx2
        (Event.ActionStarted a.description :: Event.ActionCompleted a.description ok :: r.1,
         r.2.1, r.2.2)

/-- Number of `ActionStarted` events in a trace: one per executed action. -/
def startedCount (evs : List Event) : Nat :=
  (evs.filter fun e => match e with | Event.ActionStarted _ => true | _ => false).length

/-- A prefix of a sequence runs cleanly when every action executes without a
hard failure and without setting the termination flag; returns the resulting
context. -/
def runClean : List ActionItem → ActionContext → Option ActionContext
  | [], ctx => some ctx
  | a :: rest, ctx =>
    match a.execute ctx with
    | none => none
    | some (ctx2, _) =>
      if ctx2.should_terminate then none else runClean rest ctx2

/-- Modelled from the spec: the per-region state of the Condition evaluator
(spec 4.2; the Rust evaluator is not among the available sources): the prior
content hash of each configured region (`none` before the first capture) and
the consecutive-match counter. -/
structure CondState where
  prior : List (Option Nat)
  counter : Nat
  deriving DecidableEq, Repr

/-- Modelled from the spec: one Condition-evaluator check (spec 4.2). Each
capture is the downscaled content hash of its region, `none` when the capture
failed. A failed capture is no new information; a first capture records its
hash without counting as an observation; otherwise the counter increments
when the observed change matches `expectChange` across all regions and
resets to zero when it does not. -/
def conditionStep (expectChange : Bool) (st : CondState) (captures : List (Option Nat)) :
    CondState :=
  let newPrior := List.zipWith
    (fun old cap => match cap with | some h => some h | none => old) st.prior captures
  let anyFailed := captures.any Option.isNone
  let anyInit := st.prior.any Option.isNone
  if anyFailed || anyInit then { prior := newPrior, counter := st.counter }
  else
    let changed := (st.prior.zip captures).any fun pc => pc.1 != pc.2
    if changed == expectChange then { prior := newPrior, counter := st.counter + 1 }
    else { prior := newPrior, counter := 0 }

/-- One evaluation: update the state and report whether the condition holds
(counter has reached `consecutiveChecks`). -/
def conditionEval (expectChange : Bool) (consecutiveChecks : Nat) (st : CondState)
    (captures : List (Option Nat)) : Bool × CondState :=
  let st2 := conditionStep expectChange st captures
  (decide (consecutiveChecks ≤ st2.counter), st2)

/-- Evaluate the condition over a sequence of ticks, collecting each tick's
result. -/
def conditionRun (expectChange : Bool) (consecutiveChecks : Nat) :
    CondState → List (List (Option Nat)) → List Bool
  | _, [] => []
  | st, caps :: rest =>
    let r := conditionEval expectChange consecutiveChecks st caps
    r.1 :: conditionRun expectChange consecutiveChecks r.2 rest

/-- Modelled from the spec: the Automation backend's pointer primitive
(spec 4.4; the Rust backend is not among the available sources). `warpAndQuery`
issues the platform warp call to the target and then queries the resulting
pointer position; the query result is what the OS reports, which may differ
from the target. -/
structure PointerBackend where
  warpAndQuery : Int × Int → Int × Int

/-- Modelled from the spec: cursor relocation with mandatory post-warp
verification (spec 4.4): warp, query the resulting position, and fail with an
error when the discrepancy from the target exceeds the tolerance. -/
def relocatePointer (b : PointerBackend) (tolerance : Nat) (target : Int × Int) :
    Except String (Int × Int) :=
  let pos := b.warpAndQuery target
  if (pos.1 - target.1).natAbs ≤ tolerance ∧ (pos.2 - target.2).natAbs ≤ tolerance then
    Except.ok pos
  else
    Except.error "pointer relocation verification failed"

/-- A token of the typed-text syntax: a literal character or a
bracket-delimited special key name. -/
inductive TextToken where
  | lit (c : Char)
  | special (name : String)
  deriving DecidableEq, Repr

/-- Modelled from the spec: the typed-text scanner (spec 4.3 and design note
in section 9; the Rust `type_text` is not among the available sources). A
two-state machine: literal scan (`none`) and bracket scan (`some acc`, the
bracket content so far, reversed). A `[` opens bracket scan; `]` closes it,
emitting the collected name as a special key; input that ends inside an
unterminated bracket is re-emitted as literal text (fail open). -/
def scanTypedAux : Option (List Char) → List Char → List TextToken
  | none, [] => []
  | some acc, [] => ( '[' :: acc.reverse).map TextToken.lit
  | none, c :: rest =>
    if c = '[' then scanTypedAux (some []) rest
    else TextToken.lit c :: scanTypedAux none rest
  | some acc, c :: rest =>
    if c = ']' then TextToken.special (String.mk acc.reverse) :: scanTypedAux none rest
    else scanTypedAux (some (c :: acc)) rest

/-- Tokenize a typed string, starting in literal scan. -/
def typeTextTokens (s : String) : List TextToken :=
  scanTypedAux none s.toList

/-- A synthesized key identity: a layout-mapped character or a named special
key. -/
inductive KeyId where
  | ch (c : Char)
  | named (n : String)
  deriving DecidableEq, Repr

/-- A synthesized key event: down or up. -/
inductive KeySynth where
  | down (k : KeyId)
  | up (k : KeyId)
  deriving DecidableEq, Repr

/-- Each token synthesizes a key down followed by a key up (spec 4.4). -/
def synthToken : TextToken → List KeySynth
  | TextToken.lit c => [KeySynth.down (KeyId.ch c), KeySynth.up (KeyId.ch c)]
  | TextToken.special n => [KeySynth.down (KeyId.named n), KeySynth.up (KeyId.named n)]

/-- The full key-event stream synthesized for a typed string. -/
def typeText (s : String) : List KeySynth :=
  ((typeTextTokens s).map synthToken).flatten

/-- Mouse button (src/components/RecordingBar.tsx and ActionRecorder.tsx). -/
inductive MouseButton where
  | Left
  | Right
  | Middle
  deriving DecidableEq, Repr

/-- Recording event (src/components/RecordingBar.tsx lines 4-6): a click with
button and coordinates, or a typed text run. -/
inductive RecordingEvent where
  | click (button : MouseButton) (x y : Int)
  | type (text : String)
  deriving DecidableEq, Repr

/-- An ActionSequence action produced by the recorder mapping
(src/components/RecordingBar.tsx lines 47-50). -/
inductive RecAction where
  | Click (x y : Int) (button : MouseButton)
  | Type (text : String)
  deriving DecidableEq, Repr

/-- Function `toActions` (src/components/RecordingBar.tsx lines 45-58): map recording
events to ActionSequence actions by a left-to-right push loop. -/
def toActions : List RecordingEvent → List RecAction
  | [] => []
  | RecordingEvent.click b x y :: rest => RecAction.Click x y b :: toActions rest
  | RecordingEvent.type t :: rest => RecAction.Type t :: toActions rest

/-- The per-event mapping applied by `toActions`: a click keeps its x, y and
button; a type event keeps its text. -/
def recEventAction : RecordingEvent → RecAction
  | RecordingEvent.click b x y => RecAction.Click x y b
  | RecordingEvent.type t => RecAction.Type t

/-- One entry of the recording-events log (recordingEvents store). The
optional untyped `data` payload is omitted; it never influences the store's
list operations. -/
structure RecordingLogEntry where
  entryId : String
  timestamp : Nat
  level : String
  entrySource : String
  message : String
  deriving DecidableEq, Repr

/-- A heap of JavaScript array objects holding log entries. Mutation of one
array object leaves every other object untouched; allocation appends a fresh
object whose reference was never handed out before. -/
structure JsHeap where
  cells : List (List RecordingLogEntry)
  deriving DecidableEq, Repr

/-- Read the contents of an array object. -/
def JsHeap.get (h : JsHeap) (r : Nat) : List RecordingLogEntry :=
  h.cells.getD r []

/-- Mutate an array object in place. -/
def JsHeap.mutate (h : JsHeap) (r : Nat) (v : List RecordingLogEntry) : JsHeap :=
  ⟨h.cells.set r v⟩

/-- Allocate a fresh array object. -/
def JsHeap.alloc (h : JsHeap) (v : List RecordingLogEntry) : JsHeap × Nat :=
  (⟨h.cells ++ [v]⟩, h.cells.length)

/-- The observable state of the `RecordingEventsStore` singleton
(recordingEvents store, lines 211-296): the heap, the reference held in the
private `logs` field, and the references of all arrays handed out by
`getLogs`. Listeners and console output do not affect the log list and are
not modelled. -/
structure StoreWorld where
  heap : JsHeap
  logsRef : Nat
  returned : List Nat
  deriving DecidableEq, Repr

/-- One store operation: `log` (with the already-built entry), `clear`, or
`getLogs`. -/
inductive StoreOp where
  | logE (e : RecordingLogEntry)
  | clear
  | getLogs
  deriving DecidableEq, Repr

/-- The `RecordingEventsStore` operations as heap transitions.
`log`: push onto the `logs` array in place, then, when its length exceeds
`maxLogs = 500`, reassign `logs` to the fresh array `this.logs.slice(-500)`.
`clear`: reassign `logs` to a fresh empty array.
`getLogs`: hand out a fresh copy `[...this.logs]` of the current array. -/
def storeStep (w : StoreWorld) : StoreOp → StoreWorld
  | StoreOp.logE e =>
    let pushed := w.heap.get w.logsRef ++ [e]
    let h1 := w.heap.mutate w.logsRef pushed
    if 500 < pushed.length then
      let a := h1.alloc (jsSliceLast 500 pushed)
      { heap := a.1, logsRef := a.2, returned := w.returned }
    else
      { w with heap := h1 }
  | StoreOp.clear =>
    let a := w.heap.alloc []
    { heap := a.1, logsRef := a.2, returned := w.returned }
  | StoreOp.getLogs =>
    let a := w.heap.alloc (w.heap.get w.logsRef)
    { heap := a.1, logsRef := w.logsRef, returned := w.returned ++ [a.2] }

/-- The store at construction: one empty array, held by `logs`, nothing
handed out. -/
def storeInit : StoreWorld :=
  { heap := ⟨[[]]⟩, logsRef := 0, returned := [] }

/-- The store after a sequence of operations. -/
def runStore (ops : List StoreOp) : StoreWorld :=
  ops.foldl storeStep storeInit

/-- All entries logged since the last `clear`, in insertion order. -/
def loggedSinceClear (ops : List StoreOp) : List RecordingLogEntry :=
  ops.foldl
    (fun acc op =>
      match op with
      | StoreOp.logE e => acc ++ [e]
      | StoreOp.clear => []
      | StoreOp.getLogs => acc)
    []

/-- The contents of the `logs` array as a pure list transition: push, then
cap to the last 500 entries; `clear` empties; `getLogs` reads only. -/
def storeModelStep (l : List RecordingLogEntry) : StoreOp → List RecordingLogEntry
  | StoreOp.logE e =>
    let p := l ++ [e]
    if 500 < p.length then jsSliceLast 500 p else p
  | StoreOp.clear => []
  | StoreOp.getLogs => l

/-- Heap well-formedness of a store world: the `logs` reference is live, and
every handed-out reference is live and distinct from the `logs` reference. -/
def StoreInv (w : StoreWorld) : Prop :=
  w.logsRef < w.heap.cells.length ∧
    ∀ r ∈ w.returned, r < w.heap.cells.length ∧ r ≠ w.logsRef

/-- A recorded action of the Action Recorder
(src/components/ActionRecorder.tsx lines 5-7). Text actions always carry the
position they were created with. -/
inductive RecordedAction where
  | click (x y : Int) (button : MouseButton)
  | text (text : String) (x y : Int)
  deriving DecidableEq, Repr

/-- The Action Recorder's mutable state while recording
(src/components/ActionRecorder.tsx lines 19-21): the recorded actions, the
pending text buffer, and the position remembered for the pending text. -/
structure RecorderState where
  actions : List RecordedAction
  textBuffer : String
  textStartPos : Option (Int × Int)
  deriving DecidableEq, Repr

/-- Function `flushTextBuffer` (src/components/ActionRecorder.tsx lines 48-60): when
both the buffer and the start position are set, append the buffered text as
a single text action and reset buffer and position. -/
def flushTextBuffer (st : RecorderState) : RecorderState :=
  if st.textBuffer ≠ "" then
    match st.textStartPos with
    | some p =>
      { actions := st.actions ++ [RecordedAction.text st.textBuffer p.1 p.2],
        textBuffer := "", textStartPos := none }
    | none => st
  else st

/-- The browser button-code mapping used by `handleScreenshotClick`
(src/components/ActionRecorder.tsx line 74): 0 is Left, 2 is Right,
anything else Middle. -/
def buttonOf (buttonCode : Nat) : MouseButton :=
  if buttonCode = 0 then MouseButton.Left
  else if buttonCode = 2 then MouseButton.Right
  else MouseButton.Middle

/-- Handler `handleScreenshotClick` (src/components/ActionRecorder.tsx lines 63-78)
while recording: flush any pending text first, then append a click action at
the converted coordinates. `toReal` stands for `toRealCoords`. -/
def handleScreenshotClick (toReal : Int × Int → Int × Int) (st : RecorderState)
    (clientX clientY : Int) (buttonCode : Nat) : RecorderState :=
  let st1 := flushTextBuffer st
  let rc := toReal (clientX, clientY)
  { st1 with actions := st1.actions ++ [RecordedAction.click rc.1 rc.2 (buttonOf buttonCode)] }

/-- The bracket-delimited label built for a non-printable key or a modifier
combination (src/components/ActionRecorder.tsx line 108). -/
def specialKeyString (key : String) (ctrlKey altKey shiftKey : Bool) : String :=
  "[" ++ (if ctrlKey then "Ctrl+" else "") ++ (if altKey then "Alt+" else "")
      ++ (if shiftKey then "Shift+" else "") ++ key ++ "]"

/-- Handler `handleKeyDown` (src/components/ActionRecorder.tsx lines 81-117) while
recording. Escape cancels the session (records nothing); a modifier key
alone is ignored; a printable key without Ctrl, Meta, or Alt is appended to
the text buffer, remembering the start position on the first character;
anything else flushes the buffer and appends a bracket-delimited special-key
text action. `center` stands for the converted window-center position used
for text actions. -/
def handleKeyDown (center : Int × Int) (st : RecorderState) (key : String)
    (ctrlKey altKey shiftKey metaKey : Bool) : RecorderState :=
  if key = "Escape" then st
  else if key = "Shift" ∨ key = "Control" ∨ key = "Alt" ∨ key = "Meta" then st
  else if key.length = 1 ∧ ctrlKey = false ∧ metaKey = false ∧ altKey = false then
    { st with
      textBuffer := st.textBuffer ++ key,
      textStartPos :=
        if st.textBuffer = "" ∧ st.textStartPos = none then some center
        else st.textStartPos }
  else
    let st1 := flushTextBuffer st
    { st1 with
      actions := st1.actions ++
        [RecordedAction.text (specialKeyString key ctrlKey altKey shiftKey)
          center.1 center.2] }

/-- States reachable while recording: a non-empty text buffer always has a
start position (the first buffered character records one). -/
def RecorderInv (st : RecorderState) : Prop :=
  st.textBuffer = "" ∨ st.textStartPos.isSome = true

/-- A concrete instance of C2: a no-op action, then a terminating action,
then an action that would poison the context if it ever ran. -/
def c2noop : ActionItem :=
  { description := "noop",
    execute := fun ctx => some (ctx, true) }

/-- The terminating action of the C2 witness. -/
def c2term : ActionItem :=
  { description := "terminate",
    execute := fun ctx =>
      some ({ ctx with
              should_terminate := true
              termination_reason := some "done" }, true) }

/-- The action after termination in the C2 witness; it must never run. -/
def c2after : ActionItem :=
  { description := "after",
    execute := fun ctx => some ({ ctx with vars := [("ran", "yes")] }, true) }

/-- The initial context of the C2 witness. -/
def c2ctx : ActionContext :=
  { vars := [], should_terminate := false, termination_reason := none }

/-- The context produced by the terminating action of the C2 witness. -/
def c2ctxTerm : ActionContext :=
  { vars := [], should_terminate := true, termination_reason := some "done" }

/-- A concrete log entry for exercising the store model. -/
def c9entry : RecordingLogEntry :=
  { entryId := "1", timestamp := 0, level := "info", entrySource := "app",
    message := "captured" }

theorem jsSliceLast_length (n : Nat) (l : List α) :
    (jsSliceLast n l).length = min n l.length := by
  simp [jsSliceLast]
  omega

theorem useEventStreamUpdate_eq (dlv : List Event) (e : Event) :
    useEventStreamUpdate (jsSliceLast 500 dlv) e = jsSliceLast 500 (dlv ++ [e]) := by
  unfold useEventStreamUpdate jsSliceLast
  rw [List.drop_drop, List.length_drop]
  simp only [List.length_append, List.length_singleton]
  have h1 : dlv.length - 500 + (dlv.length - (dlv.length - 500) - 499) = dlv.length - 499 := by
    omega
  have h2 : dlv.length + 1 - 500 = dlv.length - 499 := by omega
  have h3 : dlv.length - 499 ≤ dlv.length := by omega
  rw [h1, h2, List.drop_append_of_le_length h3]

theorem useEventStreamEvents_eq (dlv : List Event) :
    useEventStreamEvents dlv = jsSliceLast 500 dlv := by
  induction dlv using List.reverseRecOn with
  | nil => rfl
  | append_singleton xs x ih =>
    unfold useEventStreamEvents at ih ⊢
    rw [List.foldl_append, List.foldl_cons, List.foldl_nil, ih]
    exact useEventStreamUpdate_eq xs x

/-- C5: for every sequence of events delivered to the UI event sink, the list
held by `useEventStream` is the at-most-500 most recent delivered events in
delivery order: it equals the last-500 suffix of the delivered sequence, so
each delivered event sits at the end and only the oldest entries are ever
dropped. -/
theorem C5_useEventStream_bounded_recent (delivered : List Event) :
    useEventStreamEvents delivered = jsSliceLast 500 delivered ∧
    (useEventStreamEvents delivered).length ≤ 500 := by
  refine ⟨useEventStreamEvents_eq delivered, ?_⟩
  rw [useEventStreamEvents_eq delivered, jsSliceLast_length]
  omega

/-- C6: processing a `MonitorStateChanged` event whose state is not `Running`
leaves `useRunState`'s `runningProfileId` cleared, whatever it held before —
every stop leaves the surface ready for a fresh start. -/
theorem C6_useRunState_clears_on_stop (cur : Option String) (s : MonitorState)
    (h : s ≠ MonitorState.Running) :
    useRunStateUpdate cur (Event.MonitorStateChanged s) = none := by
  simp [useRunStateUpdate, h]

theorem C6_useRunState_clears_on_stop_witness :
    useRunStateUpdate (some "profile-1") (Event.MonitorStateChanged MonitorState.Stopped) =
      none :=
  C6_useRunState_clears_on_stop (some "profile-1") MonitorState.Stopped (by decide)

/-- C4 counterexample: starting from `PanicStopped` itself, calling
`panic_stop` twice emits zero events, not exactly one, so the claim does not
hold literally for every `MonitorState`. -/
theorem C4_panic_stop_counterexample :
    ¬ ((panic_stop MonitorState.PanicStopped).2 ++
        (panic_stop (panic_stop MonitorState.PanicStopped).1).2).length = 1 := by
  decide

/-- C4 amended: `panic_stop` always yields `PanicStopped` and is idempotent;
the second of two consecutive calls emits no event, so across the two calls
exactly one event is emitted from any state other than `PanicStopped`, and
zero events when already `PanicStopped`. -/
theorem C4_panic_stop_idempotent (s : MonitorState) :
    (panic_stop s).1 = MonitorState.PanicStopped ∧
    (panic_stop (panic_stop s).1).1 = MonitorState.PanicStopped ∧
    (panic_stop (panic_stop s).1).2 = [] ∧
    ((panic_stop s).2 ++ (panic_stop (panic_stop s).1).2).length =
      (if s = MonitorState.PanicStopped then 0 else 1) := by
  cases s <;> decide

/-- C3: for every backend behaviour and every target, cursor relocation
queries the post-warp pointer position and either succeeds with that
position within tolerance of the target, or fails with a reported error —
it never silently succeeds with the pointer elsewhere. -/
theorem C3_relocate_verified_or_error (b : PointerBackend) (tolerance : Nat)
    (target : Int × Int) :
    (∃ pos, relocatePointer b tolerance target = Except.ok pos ∧
        ((pos.1 - target.1).natAbs ≤ tolerance ∧ (pos.2 - target.2).natAbs ≤ tolerance)) ∨
    (∃ msg, relocatePointer b tolerance target = Except.error msg) := by
  by_cases h : ((b.warpAndQuery target).1 - target.1).natAbs ≤ tolerance ∧
      ((b.warpAndQuery target).2 - target.2).natAbs ≤ tolerance
  · exact Or.inl ⟨b.warpAndQuery target, by simp [relocatePointer, h], h⟩
  · exact Or.inr ⟨"pointer relocation verification failed", by simp [relocatePointer, h]⟩

theorem toActions_eq_map (evs : List RecordingEvent) :
    toActions evs = evs.map recEventAction := by
  induction evs with
  | nil => rfl
  | cons e rest ih => cases e <;> simp [toActions, recEventAction, ih]

/-- C8: `toActions` maps each recording event to exactly one action in the
same order — a click to a `Click` with the same x, y, and button, a type
event to a `Type` with the same text — and is a list homomorphism over
concatenation. -/
theorem C8_toActions_map_hom (xs ys evs : List RecordingEvent) :
    toActions (xs ++ ys) = toActions xs ++ toActions ys ∧
    toActions evs = evs.map recEventAction ∧
    (toActions evs).length = evs.length := by
  refine ⟨?_, toActions_eq_map evs, ?_⟩
  · rw [toActions_eq_map, toActions_eq_map, toActions_eq_map, List.map_append]
  · rw [toActions_eq_map, List.length_map]

/-- C1: on the first capture for a region the Condition evaluator records the
hash without counting it as an observation, and with one region,
`consecutive_checks = 1`, `expect_change = false`, any hash sequence
`[A, A, A, A]` evaluates false on tick 1 (initialization only) and true from
tick 2 onward. -/
theorem C1_first_capture_initializes (A : Nat) :
    (conditionStep false ⟨[none], 0⟩ [some A]).prior = [some A] ∧
    (conditionStep false ⟨[none], 0⟩ [some A]).counter = 0 ∧
    conditionRun false 1 ⟨[none], 0⟩ [[some A], [some A], [some A], [some A]] =
      [false, true, true, true] := by
  refine ⟨rfl, rfl, ?_⟩
  simp [conditionRun, conditionEval, conditionStep]

theorem run_cons_clean (b : ActionItem) (rest : List ActionItem) (ctx0 : ActionContext)
    (ctxb : ActionContext) (okb : Bool)
    (hb : b.execute ctx0 = some (ctxb, okb)) (ht : ctxb.should_terminate = false) :
    ActionSequence.run (b :: rest) ctx0 =
      (Event.ActionStarted b.description :: Event.ActionCompleted b.description okb ::
        (ActionSequence.run rest ctxb).1,
       (ActionSequence.run rest ctxb).2.1, (ActionSequence.run rest ctxb).2.2) := by
  simp [ActionSequence.run, hb, ht]

/-- C2: if the actions before some action `a` run cleanly and `a`'s execution
sets `should_terminate`, then the executor stops after `a` — exactly
`pre.length + 1` actions are started, none of `post` executes, the final
context is the one `a` produced — and the sequence reports overall success. -/
theorem C2_early_termination_success (pre post : List ActionItem) (a : ActionItem)
    (ctx0 ctx1 ctx2 : ActionContext) (ok : Bool)
    (hpre : runClean pre ctx0 = some ctx1)
    (ha : a.execute ctx1 = some (ctx2, ok))
    (hterm : ctx2.should_terminate = true) :
    (ActionSequence.run (pre ++ a :: post) ctx0).2.2 = true ∧
    (ActionSequence.run (pre ++ a :: post) ctx0).2.1 = ctx2 ∧
    startedCount (ActionSequence.run (pre ++ a :: post) ctx0).1 = pre.length + 1 := by
  induction pre generalizing ctx0 with
  | nil =>
    simp only [runClean, Option.some.injEq] at hpre
    subst hpre
    simp [ActionSequence.run, ha, hterm, startedCount]
  | cons b rest ih =>
    simp only [runClean] at hpre
    cases hb : b.execute ctx0 with
    | none => rw [hb] at hpre; cases hpre
    | some pr =>
      obtain ⟨ctxb, okb⟩ := pr
      rw [hb] at hpre
      dsimp only at hpre
      by_cases ht : ctxb.should_terminate = true
      · rw [if_pos ht] at hpre; cases hpre
      · rw [if_neg ht] at hpre
        have ht' : ctxb.should_terminate = false := by
          cases h : ctxb.should_terminate
          · rfl
          · exact absurd h ht
        have hrec := ih ctxb hpre
        rw [List.cons_append, run_cons_clean b (rest ++ a :: post) ctx0 ctxb okb hb ht']
        refine ⟨hrec.1, hrec.2.1, ?_⟩
        have h3 := hrec.2.2
        simp only [startedCount, List.filter_cons] at h3 ⊢
        simp at h3 ⊢
        omega

theorem C2_early_termination_success_witness :
    (ActionSequence.run ([c2noop] ++ c2term :: [c2after]) c2ctx).2.2 = true ∧
    (ActionSequence.run ([c2noop] ++ c2term :: [c2after]) c2ctx).2.1 = c2ctxTerm ∧
    startedCount (ActionSequence.run ([c2noop] ++ c2term :: [c2after]) c2ctx).1 = 2 :=
  C2_early_termination_success [c2noop] [c2after] c2term c2ctx c2ctx c2ctxTerm true
    (by rfl) (by rfl) (by rfl)

theorem scanTypedAux_bracket_no_close (l : List Char) (h : ']' ∉ l) :
    ∀ acc : List Char,
      scanTypedAux (some acc) l = ( '[' :: acc.reverse ++ l).map TextToken.lit := by
  induction l with
  | nil => intro acc; simp [scanTypedAux]
  | cons c rest ih =>
    intro acc
    simp only [List.mem_cons, not_or] at h
    have hc : ¬ c = ']' := fun e => h.1 e.symm
    rw [scanTypedAux, if_neg hc, ih h.2 (c :: acc)]
    simp

theorem scanTypedAux_none_no_close (l : List Char) (h : ']' ∉ l) :
    scanTypedAux none l = l.map TextToken.lit := by
  induction l with
  | nil => rfl
  | cons c rest ih =>
    simp only [List.mem_cons, not_or] at h
    by_cases hc : c = '['
    · subst hc
      rw [scanTypedAux, if_pos rfl]
      rw [scanTypedAux_bracket_no_close rest (fun m => h.2 m) []]
      simp
    · rw [scanTypedAux, if_neg hc]
      rw [ih h.2]
      simp

/-- C7: the typed-text scanner interleaves literal characters with
bracket-delimited special key names: `"hi[Enter]"` synthesizes down/up pairs
for `h`, `i`, then the named `Enter` key, with no literal bracket characters
synthesized; and any input without a closing bracket — in particular an
unterminated `[` — is emitted entirely as literal text (fail open). -/
theorem C7_typed_text_scanner (l : List Char) (h : ']' ∉ l) :
    typeText "hi[Enter]" =
      [KeySynth.down (KeyId.ch 'h'), KeySynth.up (KeyId.ch 'h'),
       KeySynth.down (KeyId.ch 'i'), KeySynth.up (KeyId.ch 'i'),
       KeySynth.down (KeyId.named "Enter"), KeySynth.up (KeyId.named "Enter")] ∧
    scanTypedAux none l = l.map TextToken.lit := by
  exact ⟨by decide, scanTypedAux_none_no_close l h⟩

theorem C7_typed_text_scanner_witness :
    typeText "hi[Enter]" =
      [KeySynth.down (KeyId.ch 'h'), KeySynth.up (KeyId.ch 'h'),
       KeySynth.down (KeyId.ch 'i'), KeySynth.up (KeyId.ch 'i'),
       KeySynth.down (KeyId.named "Enter"), KeySynth.up (KeyId.named "Enter")] ∧
    scanTypedAux none ['h', 'i', '['] =
      [TextToken.lit 'h', TextToken.lit 'i', TextToken.lit '['] :=
  ⟨(C7_typed_text_scanner ['h', 'i', '['] (by decide)).1,
   (C7_typed_text_scanner ['h', 'i', '['] (by decide)).2⟩

theorem JsHeap.get_alloc_new (h : JsHeap) (v : List RecordingLogEntry) :
    (h.alloc v).1.get (h.alloc v).2 = v := by
  simp [JsHeap.alloc, JsHeap.get, List.getD_eq_getElem?_getD, List.getElem?_concat_length]

theorem JsHeap.get_alloc_old (h : JsHeap) (v : List RecordingLogEntry) (r : Nat)
    (hr : r < h.cells.length) :
    (h.alloc v).1.get r = h.get r := by
  simp [JsHeap.alloc, JsHeap.get, List.getD_eq_getElem?_getD, List.getElem?_append_left hr]

theorem JsHeap.get_mutate_self (h : JsHeap) (r : Nat) (v : List RecordingLogEntry)
    (hr : r < h.cells.length) :
    (h.mutate r v).get r = v := by
  simp [JsHeap.mutate, JsHeap.get, List.getD_eq_getElem?_getD, List.getElem?_set_self hr]

theorem JsHeap.get_mutate_ne (h : JsHeap) (r rd : Nat) (v : List RecordingLogEntry)
    (hne : r ≠ rd) :
    (h.mutate r v).get rd = h.get rd := by
  simp [JsHeap.mutate, JsHeap.get, List.getD_eq_getElem?_getD, List.getElem?_set_ne hne]

theorem storeStep_good (w : StoreWorld) (op : StoreOp) (hw : StoreInv w) :
    StoreInv (storeStep w op) ∧
    (storeStep w op).heap.get (storeStep w op).logsRef
      = storeModelStep (w.heap.get w.logsRef) op := by
  obtain ⟨h1, h2⟩ := hw
  cases op with
  | logE e =>
    simp only [storeStep, storeModelStep]
    by_cases hp : 500 < (w.heap.get w.logsRef ++ [e]).length
    · rw [if_pos hp, if_pos hp]
      refine ⟨⟨?_, ?_⟩, ?_⟩
      · simp [JsHeap.alloc, JsHeap.mutate]
      · intro r hr
        obtain ⟨hrl, hrn⟩ := h2 r hr
        have hx : r < w.heap.cells.length := hrl
        simp [JsHeap.alloc, JsHeap.mutate]
        omega
      · rw [JsHeap.get_alloc_new]
    · rw [if_neg hp, if_neg hp]
      refine ⟨⟨?_, ?_⟩, ?_⟩
      · simpa [JsHeap.mutate] using h1
      · intro r hr
        obtain ⟨hrl, hrn⟩ := h2 r hr
        have hx : r < w.heap.cells.length := hrl
        have hy : r ≠ w.logsRef := hrn
        simp [JsHeap.mutate]
        omega
      · exact JsHeap.get_mutate_self w.heap w.logsRef _ h1
  | clear =>
    simp only [storeStep, storeModelStep]
    refine ⟨⟨?_, ?_⟩, ?_⟩
    · simp [JsHeap.alloc]
    · intro r hr
      obtain ⟨hrl, hrn⟩ := h2 r hr
      have hx : r < w.heap.cells.length := hrl
      simp [JsHeap.alloc]
      omega
    · rw [JsHeap.get_alloc_new]
  | getLogs =>
    simp only [storeStep, storeModelStep]
    refine ⟨⟨?_, ?_⟩, ?_⟩
    · simp [JsHeap.alloc]
      omega
    · intro r hr
      simp only [List.mem_append, List.mem_singleton] at hr
      cases hr with
      | inl hin =>
        obtain ⟨hrl, hrn⟩ := h2 r hin
        have hx : r < w.heap.cells.length := hrl
        have hy : r ≠ w.logsRef := hrn
        simp [JsHeap.alloc]
        omega
      | inr hnew =>
        subst hnew
        simp [JsHeap.alloc]
        omega
    · exact JsHeap.get_alloc_old w.heap _ w.logsRef h1

theorem runStore_good (ops : List StoreOp) :
    StoreInv (runStore ops) ∧
    (runStore ops).heap.get (runStore ops).logsRef = List.foldl storeModelStep [] ops := by
  induction ops using List.reverseRecOn with
  | nil =>
    refine ⟨⟨?_, ?_⟩, rfl⟩
    · simp [runStore, storeInit]
    · intro r hr
      simp [runStore, storeInit] at hr
  | append_singleton xs x ih =>
    have hstep : runStore (xs ++ [x]) = storeStep (runStore xs) x := by
      simp [runStore, List.foldl_append]
    have hs := storeStep_good (runStore xs) x ih.1
    refine ⟨hstep ▸ hs.1, ?_⟩
    rw [hstep, List.foldl_append, List.foldl_cons, List.foldl_nil, ← ih.2]
    exact hs.2

theorem jsSliceLast_of_le (n : Nat) (l : List α) (h : l.length ≤ n) :
    jsSliceLast n l = l := by
  have h0 : l.length - n = 0 := by omega
  rw [jsSliceLast, h0, List.drop_zero]

theorem jsSliceLast_append_right (n : Nat) (hn : 1 ≤ n) (L : List α) (x : α) :
    jsSliceLast n (jsSliceLast n L ++ [x]) = jsSliceLast n (L ++ [x]) := by
  unfold jsSliceLast
  rw [List.length_append, List.length_drop, List.length_singleton, List.length_append,
    List.length_singleton]
  have hle : L.length - (L.length - n) + 1 - n ≤ (L.drop (L.length - n)).length := by
    rw [List.length_drop]; omega
  rw [List.drop_append_of_le_length hle, List.drop_drop]
  have hle2 : L.length + 1 - n ≤ L.length := by omega
  rw [List.drop_append_of_le_length hle2]
  have hidx : L.length - n + (L.length - (L.length - n) + 1 - n) = L.length + 1 - n := by
    omega
  rw [hidx]

theorem loggedSinceClear_append (xs : List StoreOp) (x : StoreOp) :
    loggedSinceClear (xs ++ [x]) =
      match x with
      | StoreOp.logE e => loggedSinceClear xs ++ [e]
      | StoreOp.clear => []
      | StoreOp.getLogs => loggedSinceClear xs := by
  cases x <;> simp [loggedSinceClear, List.foldl_append]

theorem modelFold_eq (ops : List StoreOp) :
    List.foldl storeModelStep [] ops = jsSliceLast 500 (loggedSinceClear ops) := by
  induction ops using List.reverseRecOn with
  | nil => rfl
  | append_singleton xs x ih =>
    rw [List.foldl_append, List.foldl_cons, List.foldl_nil, ih, loggedSinceClear_append]
    cases x with
    | clear => simp [storeModelStep, jsSliceLast]
    | getLogs => rfl
    | logE e =>
      simp only [storeModelStep]
      by_cases hp : 500 < (jsSliceLast 500 (loggedSinceClear xs) ++ [e]).length
      · rw [if_pos hp]
        exact jsSliceLast_append_right 500 (by omega) _ e
      · rw [if_neg hp]
        rw [List.length_append, jsSliceLast_length, List.length_singleton] at hp
        rw [jsSliceLast_of_le 500 (loggedSinceClear xs) (by omega)]
        rw [jsSliceLast_of_le 500 (loggedSinceClear xs ++ [e])
          (by rw [List.length_append, List.length_singleton]; omega)]

/-- C9: after any sequence of `log` and `clear` (and `getLogs`) calls, the
store's internal `logs` array holds exactly the last at-most-500 entries
logged since the last clear, in insertion order — hence never more than 500
— and `getLogs` hands out a fresh array object, so mutating any returned
array never changes the store's internal list. -/
theorem C9_store_capped_and_copy_safe (ops : List StoreOp) (r : Nat)
    (v : List RecordingLogEntry) (hr : r ∈ (runStore ops).returned) :
    (runStore ops).heap.get (runStore ops).logsRef
        = jsSliceLast 500 (loggedSinceClear ops) ∧
    ((runStore ops).heap.get (runStore ops).logsRef).length ≤ 500 ∧
    ((runStore ops).heap.mutate r v).get (runStore ops).logsRef
        = (runStore ops).heap.get (runStore ops).logsRef := by
  have hg := runStore_good ops
  have hc : (runStore ops).heap.get (runStore ops).logsRef
      = jsSliceLast 500 (loggedSinceClear ops) := by
    rw [hg.2, modelFold_eq]
  refine ⟨hc, ?_, ?_⟩
  · rw [hc, jsSliceLast_length]
    omega
  · obtain ⟨hrl, hrn⟩ := hg.1.2 r hr
    exact JsHeap.get_mutate_ne (runStore ops).heap r (runStore ops).logsRef v hrn

theorem C9_store_capped_and_copy_safe_witness :
    (runStore [StoreOp.logE c9entry, StoreOp.getLogs]).heap.get
        (runStore [StoreOp.logE c9entry, StoreOp.getLogs]).logsRef
      = jsSliceLast 500 (loggedSinceClear [StoreOp.logE c9entry, StoreOp.getLogs]) ∧
    ((runStore [StoreOp.logE c9entry, StoreOp.getLogs]).heap.get
        (runStore [StoreOp.logE c9entry, StoreOp.getLogs]).logsRef).length ≤ 500 ∧
    ((runStore [StoreOp.logE c9entry, StoreOp.getLogs]).heap.mutate 1 []).get
        (runStore [StoreOp.logE c9entry, StoreOp.getLogs]).logsRef
      = (runStore [StoreOp.logE c9entry, StoreOp.getLogs]).heap.get
        (runStore [StoreOp.logE c9entry, StoreOp.getLogs]).logsRef :=
  C9_store_capped_and_copy_safe [StoreOp.logE c9entry, StoreOp.getLogs] 1 [] (by decide)

theorem flushTextBuffer_empty (st : RecorderState) (h : st.textBuffer = "") :
    flushTextBuffer st = st := by
  simp [flushTextBuffer, h]

theorem flushTextBuffer_nonempty (st : RecorderState) (p : Int × Int)
    (h : st.textBuffer ≠ "") (hp : st.textStartPos = some p) :
    flushTextBuffer st =
      { actions := st.actions ++ [RecordedAction.text st.textBuffer p.1 p.2],
        textBuffer := "", textStartPos := none } := by
  simp [flushTextBuffer, h, hp]

theorem flushTextBuffer_clears (st : RecorderState) (hinv : RecorderInv st) :
    (flushTextBuffer st).textBuffer = "" := by
  cases hinv with
  | inl h => rw [flushTextBuffer_empty st h, h]
  | inr h =>
    by_cases hb : st.textBuffer = ""
    · rw [flushTextBuffer_empty st hb, hb]
    · obtain ⟨p, hp⟩ := Option.isSome_iff_exists.mp h
      rw [flushTextBuffer_nonempty st p hb hp]

/-- C10: while recording, a printable keystroke without Ctrl, Meta, or Alt is
appended to the pending text buffer and records no action; a click or a
bracket-delimited special-key keystroke first flushes a non-empty pending
buffer as a single text action and then appends its own action, so each run
of typed characters appears as one text action immediately preceding the
click or special key that followed it; and both handlers preserve the
recording invariant. -/
theorem C10_recorder_buffer_and_flush (center : Int × Int)
    (toReal : Int × Int → Int × Int) (st : RecorderState) (key : String)
    (c a sh m : Bool) (cx cy : Int) (bc : Nat) (p : Int × Int)
    (hinv : RecorderInv st) :
    (key.length = 1 → c = false → m = false → a = false →
      handleKeyDown center st key c a sh m =
        { st with
          textBuffer := st.textBuffer ++ key,
          textStartPos :=
            if st.textBuffer = "" ∧ st.textStartPos = none then some center
            else st.textStartPos }) ∧
    (st.textBuffer ≠ "" → st.textStartPos = some p →
      handleScreenshotClick toReal st cx cy bc =
        { actions := st.actions ++
            [RecordedAction.text st.textBuffer p.1 p.2,
             RecordedAction.click (toReal (cx, cy)).1 (toReal (cx, cy)).2 (buttonOf bc)],
          textBuffer := "", textStartPos := none }) ∧
    (st.textBuffer = "" →
      handleScreenshotClick toReal st cx cy bc =
        { st with actions := st.actions ++
            [RecordedAction.click (toReal (cx, cy)).1 (toReal (cx, cy)).2 (buttonOf bc)] }) ∧
    (key ≠ "Escape" →
      ¬(key = "Shift" ∨ key = "Control" ∨ key = "Alt" ∨ key = "Meta") →
      ¬(key.length = 1 ∧ c = false ∧ m = false ∧ a = false) →
      st.textBuffer ≠ "" → st.textStartPos = some p →
      handleKeyDown center st key c a sh m =
        { actions := st.actions ++
            [RecordedAction.text st.textBuffer p.1 p.2,
             RecordedAction.text (specialKeyString key c a sh) center.1 center.2],
          textBuffer := "", textStartPos := none }) ∧
    RecorderInv (handleKeyDown center st key c a sh m) ∧
    RecorderInv (handleScreenshotClick toReal st cx cy bc) := by
  have hclick : ∀ hb : st.textBuffer = "",
      handleScreenshotClick toReal st cx cy bc =
        { st with actions := st.actions ++
            [RecordedAction.click (toReal (cx, cy)).1 (toReal (cx, cy)).2 (buttonOf bc)] } := by
    intro hb
    unfold handleScreenshotClick
    rw [flushTextBuffer_empty st hb]
  refine ⟨?_, ?_, hclick, ?_, ?_, ?_⟩
  · intro hk hc hm ha
    have h1 : ¬ key = "Escape" := fun he => absurd (he ▸ hk) (by decide)
    have h2 : ¬(key = "Shift" ∨ key = "Control" ∨ key = "Alt" ∨ key = "Meta") := by
      rintro (he | he | he | he) <;> exact absurd (he ▸ hk) (by decide)
    unfold handleKeyDown
    rw [if_neg h1, if_neg h2, if_pos ⟨hk, hc, hm, ha⟩]
  · intro hb hp
    unfold handleScreenshotClick
    rw [flushTextBuffer_nonempty st p hb hp]
    simp
  · intro h1 h2 h3 hb hp
    unfold handleKeyDown
    rw [if_neg h1, if_neg h2, if_neg h3, flushTextBuffer_nonempty st p hb hp]
    simp
  · unfold handleKeyDown
    by_cases h1 : key = "Escape"
    · rw [if_pos h1]; exact hinv
    · rw [if_neg h1]
      by_cases h2 : key = "Shift" ∨ key = "Control" ∨ key = "Alt" ∨ key = "Meta"
      · rw [if_pos h2]; exact hinv
      · rw [if_neg h2]
        by_cases h3 : key.length = 1 ∧ c = false ∧ m = false ∧ a = false
        · rw [if_pos h3]
          right
          by_cases h4 : st.textBuffer = "" ∧ st.textStartPos = none
          · simp [h4]
          · simp only [h4, if_neg]
            cases hinv with
            | inl hb =>
              rcases Option.eq_none_or_eq_some st.textStartPos with hnone | ⟨q, hq⟩
              · exact absurd ⟨hb, hnone⟩ h4
              · simp [hq]
            | inr hs => simpa using hs
        · rw [if_neg h3]
          left
          simpa using flushTextBuffer_clears st hinv
  · left
    have : (handleScreenshotClick toReal st cx cy bc).textBuffer =
        (flushTextBuffer st).textBuffer := by
      unfold handleScreenshotClick
      rfl
    rw [this]
    exact flushTextBuffer_clears st hinv

theorem C10_recorder_buffer_and_flush_witness :
    handleScreenshotClick (fun q => q) ⟨[], "hi", some (5, 6)⟩ 30 40 0 =
      ⟨[RecordedAction.text "hi" 5 6, RecordedAction.click 30 40 MouseButton.Left],
       "", none⟩ :=
  (C10_recorder_buffer_and_flush (0, 0) (fun q => q) ⟨[], "hi", some (5, 6)⟩ "a"
      false false false false 30 40 0 (5, 6) (Or.inr rfl)).2.1 (by decide) rfl
